import Mathlib

/-!
Verification of the PaperClarity frontend and of the spec-modelled parts of its
document-analysis pipeline.

The definitions below are shallow embeddings of the TypeScript sources:
- `src/frontend/src/lib/types.ts` (Clause, ChatMessage)
- `src/frontend/src/ai/flows/assess-clause-risk-level.ts`
- `src/frontend/src/app/dashboard/analysis/page.tsx` (handleSendMessage)
- `src/frontend/src/components/dashboard/clause-card.tsx` (riskConfig, ClauseCard, validateFile)
- `src/frontend/src/components/dashboard/risk-overview.tsx` (RiskOverview)
- `src/frontend/src/providers/auth-provider.tsx` (login)
plus, where the backend pipeline code is absent from the repository snapshot,
models written from the specification (marked `Modelled from the spec:`).
-/

/-- The risk-level enumeration of the `Clause` type in `lib/types.ts`:
`risk_level: 'High' | 'Medium' | 'Low' | 'Unknown'`. -/
inductive RiskLevel where
  | high
  | medium
  | low
  | unknown
deriving DecidableEq, Repr

/-- Runtime decoder for the `Clause.risk_level` union type of `lib/types.ts`:
a string is a valid `risk_level` exactly when it is one of the four enumerated
literals. -/
def parseClauseRiskLevel (s : String) : Option RiskLevel :=
  if s = "High" then some RiskLevel.high
  else if s = "Medium" then some RiskLevel.medium
  else if s = "Low" then some RiskLevel.low
  else if s = "Unknown" then some RiskLevel.unknown
  else none

/-- Runtime decoder for `AssessClauseRiskLevelOutputSchema`'s
`riskLevel: z.enum(['High', 'Medium', 'Low'])` in
`ai/flows/assess-clause-risk-level.ts`: the flow's output schema admits only
these three literals. -/
def parseAssessRiskLevel (s : String) : Option RiskLevel :=
  if s = "High" then some RiskLevel.high
  else if s = "Medium" then some RiskLevel.medium
  else if s = "Low" then some RiskLevel.low
  else none

/-- Input of `assessClauseRiskLevel` (`AssessClauseRiskLevelInputSchema`):
a clause text and an optional document context. -/
structure AssessClauseRiskLevelInput where
  clauseText : String
  documentContext : Option String
deriving DecidableEq, Repr

/-- Output of `assessClauseRiskLevel` (`AssessClauseRiskLevelOutputSchema`):
a risk level and an explanation. -/
structure AssessClauseRiskLevelOutput where
  riskLevel : RiskLevel
  explanation : String
deriving DecidableEq, Repr

/-- The genkit flow `assessClauseRiskLevelFlow`: it calls the external prompt
provider on the input and returns the provider's structured output unchanged
(`const \x7boutput\x7d = await prompt(input); return output!`). The external
provider is modelled as an explicit response function, since each run of the
flow obtains its output from that external call. -/
def assessClauseRiskLevelFlow
    (promptResponse : AssessClauseRiskLevelInput → AssessClauseRiskLevelOutput)
    (input : AssessClauseRiskLevelInput) : AssessClauseRiskLevelOutput :=
  promptResponse input

/-- The exported wrapper `assessClauseRiskLevel`, which just invokes the flow. -/
def assessClauseRiskLevel
    (promptResponse : AssessClauseRiskLevelInput → AssessClauseRiskLevelOutput)
    (input : AssessClauseRiskLevelInput) : AssessClauseRiskLevelOutput :=
  assessClauseRiskLevelFlow promptResponse input

/-- The `Clause` record of `lib/types.ts` as it exists at runtime (JSON from the
backend): `risk_level` is carried as a string. -/
structure Clause where
  clause_id : String
  original_text : String
  summary : String
  risk_level : String
  entities : Option (List String)
  word_count : Option Nat
deriving DecidableEq, Repr

/-- Message roles of `ChatMessage` in `lib/types.ts`. -/
inductive ChatRole where
  | user
  | assistant
deriving DecidableEq, Repr

/-- The `ChatMessage` record of `lib/types.ts`. -/
structure ChatMessage where
  id : String
  role : ChatRole
  content : String
  references : Option (List String)
deriving DecidableEq, Repr

/-- Message ids in `handleSendMessage` are built as `msg-$\x7bDate.now()\x7d`. -/
def mkMsgId (t : Nat) : String := "msg-" ++ toString t

/-- The two appends at the start of `handleSendMessage`
(`analysis/page.tsx`): the user message (id taken at time `tu`) and the
assistant typing placeholder `...` (id `typingId` taken at time `tt`) are
pushed onto the existing message list. -/
def sendMessageBase (prev : List ChatMessage) (input : String) (tu tt : Nat) :
    List ChatMessage :=
  prev ++ [⟨mkMsgId tu, ChatRole.user, input, none⟩,
           ⟨mkMsgId tt, ChatRole.assistant, "...", none⟩]

/-- The success branch of `handleSendMessage`: after `chatWithDoc` resolves,
the assistant message re-uses `typingId` (content `result.answer`, references
`result.relevant_clauses`) and every message whose id equals `typingId` is
replaced by it. -/
def handleSendMessageSuccess (prev : List ChatMessage) (input : String)
    (tu tt : Nat) (answer : String) (relevant_clauses : List String) :
    List ChatMessage :=
  let typingId := mkMsgId tt
  let assistantMessage : ChatMessage :=
    ⟨typingId, ChatRole.assistant, answer, some relevant_clauses⟩
  (sendMessageBase prev input tu tt).map
    (fun msg => if msg.id = typingId then assistantMessage else msg)

/-- The catch branch of `handleSendMessage`: when `chatWithDoc` throws, an
error message with the fresh id `msg-$\x7bDate.now() + 1\x7d` (taken at time
`terr`) is built, and the list is mapped replacing every message whose id
equals that fresh id. -/
def handleSendMessageError (prev : List ChatMessage) (input : String)
    (tu tt terr : Nat) : List ChatMessage :=
  let errorMessage : ChatMessage :=
    ⟨mkMsgId (terr + 1), ChatRole.assistant,
     "Sorry, I encountered an error. Please try again.", none⟩
  (sendMessageBase prev input tu tt).map
    (fun msg => if msg.id = errorMessage.id then errorMessage else msg)

/-- `ACCEPTED_FILE_TYPES` keys from `document-upload` (`clause-card.tsx`
snapshot): the accepted MIME types. -/
def ACCEPTED_FILE_TYPES : List String :=
  ["application/pdf",
   "application/vnd.openxmlformats-officedocument.wordprocessingml.document",
   "application/msword"]

/-- `MAX_FILE_SIZE = 10 * 1024 * 1024` (10MB). -/
def MAX_FILE_SIZE : Nat := 10 * 1024 * 1024

/-- The relevant observable fields of a browser `File` object. -/
structure UploadFile where
  name : String
  size : Nat
  mimeType : String
deriving DecidableEq, Repr

/-- `validateFile` from the document-upload component: size check first, then
MIME type membership in `ACCEPTED_FILE_TYPES`; `null` (here `none`) on
success. -/
def validateFile (f : UploadFile) : Option String :=
  if f.size > MAX_FILE_SIZE then
    some "File size must be less than 10MB"
  else if f.mimeType ∈ ACCEPTED_FILE_TYPES then
    none
  else
    some "Please upload a PDF or Word document (.pdf, .doc, .docx)"

/-- `handleFileChange`: on a validation error the error is shown and the file
state is cleared (`setFile(null)`), so the file is not submitted; otherwise
the file is kept for submission. Result: (selected file, error). -/
def handleFileChange (f : UploadFile) : Option UploadFile × Option String :=
  match validateFile f with
  | some e => (none, some e)
  | none => (some f, none)

/-- The `User` record built by `login` in `auth-provider.tsx`. -/
structure AuthUser where
  id : String
  username : String
  email : String
deriving DecidableEq, Repr

/-- Auth-relevant state: the React `user` state and the persisted
`localStorage` entry under key `user` (stored as the serialized record,
modelled by the record itself). -/
structure AuthState where
  user : Option AuthUser
  storedUser : Option AuthUser
deriving DecidableEq, Repr

/-- `VALID_CREDENTIALS.username` in `auth-provider.tsx`. -/
def VALID_CREDENTIALS_username : String := "root12345"

/-- `VALID_CREDENTIALS.password` in `auth-provider.tsx`. -/
def VALID_CREDENTIALS_password : String := "root12345"

/-- `login` from `auth-provider.tsx`: on exactly matching credentials it sets
the user state, persists it, and returns true; otherwise it returns false and
changes nothing. -/
def login (username password : String) (st : AuthState) : Bool × AuthState :=
  if username = VALID_CREDENTIALS_username ∧ password = VALID_CREDENTIALS_password then
    let userData : AuthUser := ⟨"1", username, username ++ "@example.com"⟩
    (true, ⟨some userData, some userData⟩)
  else
    (false, st)

/-- The per-level counting in `RiskOverview` (`risk-overview.tsx`): each clause
whose `risk_level` is a key of `counts` (High, Medium, Low) increments that
counter; any other level is ignored. -/
def countRiskLevel (clauses : List Clause) (level : String) : Nat :=
  clauses.countP (fun c => c.risk_level == level)

/-- JavaScript `Math.round` on the (non-negative) values arising here:
round half toward positive infinity, i.e. the floor of the argument plus one
half. -/
def jsMathRound (q : ℚ) : ℤ := ⌊q + 1 / 2⌋

/-- The overall risk score of `RiskOverview`:
`totalClauses > 0 ? Math.round(((High*3 + Medium*2 + Low*1) / (totalClauses*3)) * 100) : 0`. -/
def riskScore (clauses : List Clause) : ℤ :=
  let totalClauses := clauses.length
  if 0 < totalClauses then
    jsMathRound
      ((((countRiskLevel clauses "High" : ℚ) * 3 +
         (countRiskLevel clauses "Medium" : ℚ) * 2 +
         (countRiskLevel clauses "Low" : ℚ) * 1) / ((totalClauses : ℚ) * 3)) * 100)
  else 0

/-- The display configuration entries of `riskConfig` in `clause-card.tsx`
(label, icon component name, and priority; the class-name strings are not
load-bearing for the claims and are omitted as fields). -/
structure RiskDisplayConfig where
  label : String
  icon : String
  priority : Nat
deriving DecidableEq, Repr

/-- `riskConfig.High` in `clause-card.tsx`. -/
def riskConfigHigh : RiskDisplayConfig := ⟨"High Risk", "ShieldAlert", 1⟩

/-- `riskConfig.Medium` in `clause-card.tsx`. -/
def riskConfigMedium : RiskDisplayConfig := ⟨"Medium Risk", "ShieldQuestion", 2⟩

/-- `riskConfig.Low` in `clause-card.tsx`. -/
def riskConfigLow : RiskDisplayConfig := ⟨"Low Risk", "ShieldCheck", 3⟩

/-- `riskConfig.Unknown` in `clause-card.tsx`. -/
def riskConfigUnknown : RiskDisplayConfig := ⟨"Unknown", "ShieldX", 4⟩

/-- The own property names of `Object.prototype`, consulted by a JavaScript
bracket access `riskConfig[level]` after the object literal's own keys. -/
def OBJECT_PROTOTYPE_KEYS : List String :=
  ["constructor", "hasOwnProperty", "isPrototypeOf", "propertyIsEnumerable",
   "toLocaleString", "toString", "valueOf", "__proto__", "__defineGetter__",
   "__defineSetter__", "__lookupGetter__", "__lookupSetter__"]

/-- Outcome of the JavaScript property access `riskConfig[level]`: one of the
object literal's own configuration entries, a truthy member inherited from
`Object.prototype` (a function, or `Object.prototype` itself for `__proto__`),
or `undefined`. -/
inductive JsLookupResult where
  | config : RiskDisplayConfig → JsLookupResult
  | inherited : String → JsLookupResult
  | undef : JsLookupResult
deriving DecidableEq, Repr

/-- Property access `riskConfig[level]` for a runtime string `level`: the four
own keys of the object literal are found first, then the prototype chain is
consulted, and only a completely absent key yields `undefined`. -/
def riskConfigAccess (level : String) : JsLookupResult :=
  if level = "High" then JsLookupResult.config riskConfigHigh
  else if level = "Medium" then JsLookupResult.config riskConfigMedium
  else if level = "Low" then JsLookupResult.config riskConfigLow
  else if level = "Unknown" then JsLookupResult.config riskConfigUnknown
  else if level ∈ OBJECT_PROTOTYPE_KEYS then JsLookupResult.inherited level
  else JsLookupResult.undef

/-- `const config = riskConfig[clause.risk_level] || riskConfig.Unknown` in
`ClauseCard`: `||` falls back only on a falsy left operand, so `undefined`
becomes the Unknown configuration while a truthy inherited prototype member is
kept unchanged. -/
def clauseCardConfigJs (clause : Clause) : JsLookupResult :=
  match riskConfigAccess clause.risk_level with
  | JsLookupResult.undef => JsLookupResult.config riskConfigUnknown
  | r => r

/-- Rendering the card from the selected `config`: the component reads
`config.label`, `config.icon`, `config.className.split(' ')` and
`config.priority`, which succeeds exactly when `config` is one of the
configuration records; on an inherited prototype member the property reads are
`undefined` and the render throws (`none`). -/
def renderClauseCard (clause : Clause) : Option RiskDisplayConfig :=
  match clauseCardConfigJs clause with
  | JsLookupResult.config c => some c
  | _ => none

/-- A level outside both the object's own keys and the prototype members is
looked up as `undefined`. -/
theorem riskConfigAccess_undef {level : String}
    (h4 : level ∉ ["High", "Medium", "Low", "Unknown"])
    (hp : level ∉ OBJECT_PROTOTYPE_KEYS) :
    riskConfigAccess level = JsLookupResult.undef := by
  unfold riskConfigAccess
  simp only [List.mem_cons, List.not_mem_nil, or_false, not_or] at h4
  obtain ⟨h1, h2, h3, hu⟩ := h4
  rw [if_neg h1, if_neg h2, if_neg h3, if_neg hu, if_neg hp]

/-- A level naming an `Object.prototype` member is looked up as the truthy
inherited member. -/
theorem riskConfigAccess_inherited {level : String}
    (hp : level ∈ OBJECT_PROTOTYPE_KEYS) :
    riskConfigAccess level = JsLookupResult.inherited level := by
  unfold riskConfigAccess
  have h1 : level ≠ "High" := fun h => by
    rw [h] at hp; exact absurd hp (by decide)
  have h2 : level ≠ "Medium" := fun h => by
    rw [h] at hp; exact absurd hp (by decide)
  have h3 : level ≠ "Low" := fun h => by
    rw [h] at hp; exact absurd hp (by decide)
  have hu : level ≠ "Unknown" := fun h => by
    rw [h] at hp; exact absurd hp (by decide)
  rw [if_neg h1, if_neg h2, if_neg h3, if_neg hu, if_pos hp]

/-- C1: when the chat request throws, the claim says the pending `...`
placeholder is replaced by the fallback assistant message. Evaluating the
catch branch at a concrete failing request (empty history, question sent at
time 0, failure at time 0) shows the placeholder is still present and no
fallback message was produced: the replacement map compares against the
freshly generated error-message id, which no message in the list has. -/
theorem C1_error_fallback_not_applied :
    (handleSendMessageError [] "What are the payment terms?" 0 0 0).map
        ChatMessage.content = ["What are the payment terms?", "..."] ∧
    (handleSendMessageError [] "What are the payment terms?" 0 0 0).all
        (fun m => m.content != "Sorry, I encountered an error. Please try again.") = true := by
  constructor
  · rfl
  · rfl

/-- C2: for every successful chat request, the assistant message delivered to
the caller (the message that ends up in place of the typing placeholder, which
is always the last list entry) carries the provider's answer unchanged and
references exactly equal to `result.relevant_clauses`. -/
theorem C2_chat_success_message (prev : List ChatMessage) (input : String)
    (tu tt : Nat) (answer : String) (relevant_clauses : List String) :
    (handleSendMessageSuccess prev input tu tt answer relevant_clauses).getLast? =
      some ⟨mkMsgId tt, ChatRole.assistant, answer, some relevant_clauses⟩ := by
  have hsplit : sendMessageBase prev input tu tt =
      (prev ++ [⟨mkMsgId tu, ChatRole.user, input, none⟩]) ++
        [⟨mkMsgId tt, ChatRole.assistant, "...", none⟩] := by
    simp [sendMessageBase]
  unfold handleSendMessageSuccess
  rw [hsplit, List.map_append]
  simp [List.getLast?_concat]

/-- C3: every clause risk level inhabits the four-value enumeration: the
`RiskLevel` type is exhaustive, the `Clause.risk_level` decoder accepts exactly
the four enumerated literals, and the assess-flow output schema accepts a
subset of them (High, Medium, Low). -/
theorem C3_risk_level_enum :
    (∀ r : RiskLevel, r = RiskLevel.high ∨ r = RiskLevel.medium ∨
      r = RiskLevel.low ∨ r = RiskLevel.unknown) ∧
    (∀ s : String, (parseClauseRiskLevel s).isSome ↔
      (s = "High" ∨ s = "Medium" ∨ s = "Low" ∨ s = "Unknown")) ∧
    (∀ (s : String) (r : RiskLevel), parseAssessRiskLevel s = some r →
      ((r = RiskLevel.high ∨ r = RiskLevel.medium ∨ r = RiskLevel.low) ∧
        parseClauseRiskLevel s = some r)) := by
  refine ⟨fun r => ?_, fun s => ?_, fun s r h => ?_⟩
  · cases r <;> simp
  · unfold parseClauseRiskLevel
    split_ifs <;> simp_all
  · unfold parseAssessRiskLevel at h
    unfold parseClauseRiskLevel
    split_ifs at h ⊢ <;> simp_all

/-- Witness for C3: the concrete string `Medium` is accepted by the flow's
output schema, lies in the three-value subset, and decodes to the same value
under the `Clause` risk-level decoder. -/
theorem C3_risk_level_enum_witness :
    (RiskLevel.medium = RiskLevel.high ∨ RiskLevel.medium = RiskLevel.medium ∨
      RiskLevel.medium = RiskLevel.low) ∧
    parseClauseRiskLevel "Medium" = some RiskLevel.medium :=
  C3_risk_level_enum.2.2 "Medium" RiskLevel.medium (by decide)

/-- C4 counterexample: risk classification is not a pure function of the
clause text and document context alone. The flow returns whatever the external
answering provider produces for the prompt, so two runs on the identical input
whose provider responses differ return different risk levels. -/
theorem C4_not_pure_counterexample :
    ¬ (∀ (p1 p2 : AssessClauseRiskLevelInput → AssessClauseRiskLevelOutput)
        (i : AssessClauseRiskLevelInput),
        assessClauseRiskLevel p1 i = assessClauseRiskLevel p2 i) := by
  intro h
  have h2 := h (fun _ => ⟨RiskLevel.high, "penalty terms detected"⟩)
    (fun _ => ⟨RiskLevel.low, "penalty terms detected"⟩)
    ⟨"Tenant shall pay a late fee of 5%", none⟩
  exact RiskLevel.noConfusion (congrArg AssessClauseRiskLevelOutput.riskLevel h2)

/-- C4 amended: `assessClauseRiskLevel` is deterministic only relative to the
external provider's response: it forwards the provider's output for the given
input unchanged, so identical inputs yield identical outputs exactly when the
provider's response function is the same. -/
theorem C4_provider_forwarding
    (promptResponse : AssessClauseRiskLevelInput → AssessClauseRiskLevelOutput)
    (input : AssessClauseRiskLevelInput) :
    assessClauseRiskLevel promptResponse input = promptResponse input := rfl

/-- C7: a file whose MIME type is not an accepted type always yields a
non-null validation error and is not kept for submission; a file of an
accepted type within the size limit validates to null. -/
theorem C7_upload_validation (f : UploadFile) :
    (f.mimeType ∉ ACCEPTED_FILE_TYPES →
      (validateFile f).isSome = true ∧ (handleFileChange f).1 = none) ∧
    (f.mimeType ∈ ACCEPTED_FILE_TYPES → f.size ≤ MAX_FILE_SIZE →
      validateFile f = none) := by
  constructor
  · intro hmem
    have hsome : (validateFile f).isSome = true := by
      unfold validateFile
      split_ifs with h1
      · rfl
      · rfl
    rcases Option.isSome_iff_exists.mp hsome with ⟨e, he⟩
    refine ⟨hsome, ?_⟩
    simp [handleFileChange, he]
  · intro hmem hsize
    unfold validateFile
    split_ifs with h1
    · exact absurd h1 (not_lt.mpr hsize)
    · rfl

/-- Witness for C7: a concrete `text/plain` file is rejected and not kept,
and a concrete small PDF validates to null. -/
theorem C7_upload_validation_witness :
    ((validateFile ⟨"notes.txt", 4096, "text/plain"⟩).isSome = true ∧
      (handleFileChange ⟨"notes.txt", 4096, "text/plain"⟩).1 = none) ∧
    validateFile ⟨"contract.pdf", 4096, "application/pdf"⟩ = none :=
  ⟨(C7_upload_validation ⟨"notes.txt", 4096, "text/plain"⟩).1 (by decide),
   (C7_upload_validation ⟨"contract.pdf", 4096, "application/pdf"⟩).2
     (by decide) (by decide)⟩

/-- C8: `login` succeeds exactly on the hardcoded credential pair, and on any
other input it reports failure and leaves the user state and the persisted
entry untouched. -/
theorem C8_login_hardcoded (username password : String) (st : AuthState) :
    ((login username password st).1 = true ↔
      (username = "root12345" ∧ password = "root12345")) ∧
    (¬ (username = "root12345" ∧ password = "root12345") →
      login username password st = (false, st)) := by
  unfold login VALID_CREDENTIALS_username VALID_CREDENTIALS_password
  split_ifs with h
  · simp [h]
  · simp [h]

/-- Witness for C8: a concrete wrong password is rejected with the state
unchanged. -/
theorem C8_login_hardcoded_witness :
    login "root12345" "wrongpass" ⟨none, none⟩ = (false, ⟨none, none⟩) :=
  (C8_login_hardcoded "root12345" "wrongpass" ⟨none, none⟩).2 (by decide)

/-- C10 counterexample: the risk level `toString` lies outside the four
enumerated values, yet the card does not render with the Unknown
configuration: the bracket access finds the truthy inherited
`Object.prototype.toString`, the `||` fallback does not fire, and the render
throws instead of producing any configuration. -/
theorem C10_prototype_counterexample :
    (⟨"clause-9", "original", "summary", "toString", none, none⟩ : Clause).risk_level ∉
        ["High", "Medium", "Low", "Unknown"] ∧
    clauseCardConfigJs ⟨"clause-9", "original", "summary", "toString", none, none⟩ =
      JsLookupResult.inherited "toString" ∧
    renderClauseCard ⟨"clause-9", "original", "summary", "toString", none, none⟩ ≠
      some riskConfigUnknown ∧
    renderClauseCard ⟨"clause-9", "original", "summary", "toString", none, none⟩ =
      none := by
  decide

/-- C10 amended: the Unknown fallback applies exactly to the levels whose
bracket access is `undefined`: a risk level outside the four enumerated keys
renders with the Unknown label and icon provided it does not name an inherited
`Object.prototype` member; a level naming such a member keeps the truthy
inherited value, the fallback never fires, and rendering fails instead. -/
theorem C10_clause_card_fallback (clause : Clause) :
    (clause.risk_level ∉ ["High", "Medium", "Low", "Unknown"] →
      clause.risk_level ∉ OBJECT_PROTOTYPE_KEYS →
      renderClauseCard clause = some riskConfigUnknown) ∧
    (clause.risk_level ∈ OBJECT_PROTOTYPE_KEYS →
      renderClauseCard clause = none) := by
  constructor
  · intro h4 hp
    unfold renderClauseCard clauseCardConfigJs
    rw [riskConfigAccess_undef h4 hp]
  · intro hp
    unfold renderClauseCard clauseCardConfigJs
    rw [riskConfigAccess_inherited hp]

/-- Witness for C10: a clause with the non-prototype out-of-enumeration level
`Critical` renders with the Unknown configuration, and one with the prototype
member name `valueOf` fails to render. -/
theorem C10_clause_card_fallback_witness :
    renderClauseCard ⟨"clause-7", "some text", "some summary", "Critical", none, none⟩ =
      some riskConfigUnknown ∧
    renderClauseCard ⟨"clause-8", "some text", "some summary", "valueOf", none, none⟩ =
      none :=
  ⟨(C10_clause_card_fallback
      ⟨"clause-7", "some text", "some summary", "Critical", none, none⟩).1
      (by decide) (by decide),
   (C10_clause_card_fallback
      ⟨"clause-8", "some text", "some summary", "valueOf", none, none⟩).2
      (by decide)⟩

/-- The three per-level counters of `RiskOverview` classify each clause into at
most one bucket, so their sum never exceeds the number of clauses. -/
theorem count_levels_le_length (clauses : List Clause) :
    countRiskLevel clauses "High" + countRiskLevel clauses "Medium" +
      countRiskLevel clauses "Low" ≤ clauses.length := by
  induction clauses with
  | nil => simp [countRiskLevel]
  | cons c cs ih =>
    simp only [countRiskLevel, List.countP_cons, List.length_cons] at *
    by_cases h1 : c.risk_level = "High" <;> by_cases h2 : c.risk_level = "Medium" <;>
      by_cases h3 : c.risk_level = "Low" <;> simp_all <;> omega

/-- C9: the overall risk score of `RiskOverview` equals
`round(100 * (3*countHigh + 2*countMedium + countLow) / (3*n))` for `n > 0`
clauses and `0` for an empty list; clauses with any other risk level count
toward `n` only; and the score always lies in `[0, 100]`. -/
theorem C9_risk_score (clauses : List Clause) :
    riskScore clauses =
      (if clauses.length = 0 then 0 else
        jsMathRound ((100 * (3 * (countRiskLevel clauses "High" : ℚ) +
            2 * (countRiskLevel clauses "Medium" : ℚ) +
            (countRiskLevel clauses "Low" : ℚ))) /
          (3 * (clauses.length : ℚ)))) ∧
    0 ≤ riskScore clauses ∧ riskScore clauses ≤ 100 := by
  by_cases h0 : clauses.length = 0
  · exact ⟨by simp [riskScore, h0], by simp [riskScore, h0], by simp [riskScore, h0]⟩
  · have hpos : 0 < clauses.length := Nat.pos_of_ne_zero h0
    have hH : (0 : ℚ) ≤ (countRiskLevel clauses "High" : ℚ) := Nat.cast_nonneg _
    have hM : (0 : ℚ) ≤ (countRiskLevel clauses "Medium" : ℚ) := Nat.cast_nonneg _
    have hL : (0 : ℚ) ≤ (countRiskLevel clauses "Low" : ℚ) := Nat.cast_nonneg _
    have hn : (0 : ℚ) < (clauses.length : ℚ) := by exact_mod_cast hpos
    have hsum : (countRiskLevel clauses "High" : ℚ) +
        (countRiskLevel clauses "Medium" : ℚ) +
        (countRiskLevel clauses "Low" : ℚ) ≤ (clauses.length : ℚ) := by
      exact_mod_cast count_levels_le_length clauses
    have hrs : riskScore clauses = jsMathRound
        ((((countRiskLevel clauses "High" : ℚ) * 3 +
           (countRiskLevel clauses "Medium" : ℚ) * 2 +
           (countRiskLevel clauses "Low" : ℚ) * 1) /
          ((clauses.length : ℚ) * 3)) * 100) := by
      simp [riskScore, hpos]
    have hx : (countRiskLevel clauses "High" : ℚ) * 3 +
        (countRiskLevel clauses "Medium" : ℚ) * 2 +
        (countRiskLevel clauses "Low" : ℚ) * 1 ≤ (clauses.length : ℚ) * 3 := by
      linarith
    have hx0 : (0 : ℚ) ≤ (countRiskLevel clauses "High" : ℚ) * 3 +
        (countRiskLevel clauses "Medium" : ℚ) * 2 +
        (countRiskLevel clauses "Low" : ℚ) * 1 := by linarith
    have hdiv1 : ((countRiskLevel clauses "High" : ℚ) * 3 +
        (countRiskLevel clauses "Medium" : ℚ) * 2 +
        (countRiskLevel clauses "Low" : ℚ) * 1) / ((clauses.length : ℚ) * 3) ≤ 1 := by
      rw [div_le_one (by positivity)]
      exact hx
    have hdiv0 : (0 : ℚ) ≤ ((countRiskLevel clauses "High" : ℚ) * 3 +
        (countRiskLevel clauses "Medium" : ℚ) * 2 +
        (countRiskLevel clauses "Low" : ℚ) * 1) / ((clauses.length : ℚ) * 3) := by
      positivity
    refine ⟨?_, ?_, ?_⟩
    · rw [hrs, if_neg h0]
      congr 1
      rw [div_mul_eq_mul_div]
      congr 1 <;> ring
    · rw [hrs]
      unfold jsMathRound
      refine Int.floor_nonneg.mpr ?_
      nlinarith
    · rw [hrs]
      unfold jsMathRound
      have hle : ((((countRiskLevel clauses "High" : ℚ) * 3 +
          (countRiskLevel clauses "Medium" : ℚ) * 2 +
          (countRiskLevel clauses "Low" : ℚ) * 1) /
            ((clauses.length : ℚ) * 3)) * 100) + 1 / 2 ≤ (100 : ℚ) + 1 / 2 := by
        nlinarith
      calc ⌊((((countRiskLevel clauses "High" : ℚ) * 3 +
            (countRiskLevel clauses "Medium" : ℚ) * 2 +
            (countRiskLevel clauses "Low" : ℚ) * 1) /
              ((clauses.length : ℚ) * 3)) * 100) + 1 / 2⌋
          ≤ ⌊(100 : ℚ) + 1 / 2⌋ := Int.floor_le_floor hle
        _ = 100 := by norm_num [Int.floor_eq_iff]

/-- Whitespace characters handled by the Normalizer model: space, tab,
carriage return, newline, and form feed (the page-boundary marker). -/
def isWsChar (c : Char) : Bool :=
  c == ' ' || c == '\t' || c == '\r' || c == '\n' || c == '\x0c'

/-- Prepends an element to the first chunk of a chunk list. -/
def consHead {α : Type _} (a : α) : List (List α) → List (List α)
  | [] => [[a]]
  | r :: rs => (a :: r) :: rs

/-- Generic splitter: cuts a list at every element satisfying `p`. Chunks keep
source order, separators are dropped, and empty chunks are kept, so the result
is never the empty list of chunks. -/
def splitOnPred {α : Type _} (p : α → Bool) : List α → List (List α)
  | [] => [[]]
  | a :: as =>
    if p a then [] :: splitOnPred p as else consHead a (splitOnPred p as)

/-- Interleaves a single separator element between chunks; inverse of
`splitOnPred` on separator-free chunks. -/
def joinSep {α : Type _} (s : α) : List (List α) → List α
  | [] => []
  | [c] => c
  | c :: c2 :: rest => c ++ s :: joinSep s (c2 :: rest)

/-- The splitter never returns an empty chunk list. -/
theorem splitOnPred_ne_nil {α : Type _} (p : α → Bool) (l : List α) :
    splitOnPred p l ≠ [] := by
  induction l with
  | nil => simp [splitOnPred]
  | cons a as ih =>
    simp only [splitOnPred]
    rcases h : splitOnPred p as with _ | ⟨r, rs⟩
    · exact absurd h ih
    · split <;> simp [consHead]

/-- A list free of separator elements splits into the single chunk itself. -/
theorem splitOnPred_eq_single {α : Type _} {p : α → Bool} :
    ∀ {l : List α}, (∀ a ∈ l, p a = false) → splitOnPred p l = [l]
  | [], _ => rfl
  | a :: as, h => by
    have ih := splitOnPred_eq_single (l := as)
      (fun x hx => h x (List.mem_cons_of_mem a hx))
    simp only [splitOnPred, ih]
    rw [if_neg (by simp [h a (List.mem_cons_self a as)])]
    rfl

/-- Splitting a separator-free chunk followed by a separator peels off that
chunk. -/
theorem splitOnPred_append_cons {α : Type _} {p : α → Bool} (s : α) (r : List α) :
    ∀ (c : List α), (∀ a ∈ c, p a = false) → p s = true →
      splitOnPred p (c ++ s :: r) = c :: splitOnPred p r := by
  intro c
  induction c with
  | nil =>
    intro _ hs
    simp only [List.nil_append, splitOnPred]
    rw [if_pos hs]
  | cons a c' ih =>
    intro hc hs
    have ihv := ih (fun x hx => hc x (List.mem_cons_of_mem a hx)) hs
    simp only [List.cons_append, splitOnPred]
    rw [if_neg (by simp [hc a (List.mem_cons_self a c')])]
    simp only [List.append_eq]
    rw [ihv]
    rfl

/-- Round trip: splitting a separator-joined list of separator-free chunks
recovers exactly the chunks. -/
theorem splitOnPred_joinSep {α : Type _} {p : α → Bool} {s : α} :
    ∀ (cs : List (List α)), cs ≠ [] →
      (∀ c ∈ cs, ∀ a ∈ c, p a = false) → p s = true →
      splitOnPred p (joinSep s cs) = cs
  | [], hne, _, _ => absurd rfl hne
  | [c], _, h, _ => by
    simp only [joinSep]
    exact splitOnPred_eq_single (h c (by simp))
  | c :: c2 :: rest, _, h, hs => by
    simp only [joinSep]
    rw [splitOnPred_append_cons s (joinSep s (c2 :: rest)) c (h c (by simp)) hs]
    rw [splitOnPred_joinSep (c2 :: rest) (by simp)
      (fun x hx => h x (List.mem_cons_of_mem c hx)) hs]

/-- Elements of chunks never satisfy the splitting predicate. -/
theorem splitOnPred_chunks_not {α : Type _} (p : α → Bool) :
    ∀ (l : List α), ∀ c ∈ splitOnPred p l, ∀ a ∈ c, p a = false := by
  intro l
  induction l with
  | nil =>
    intro c hc a ha
    simp only [splitOnPred, List.mem_singleton] at hc
    subst hc
    simp at ha
  | cons x xs ih =>
    intro c hc a ha
    simp only [splitOnPred] at hc
    rcases h : splitOnPred p xs with _ | ⟨r, rs⟩
    · exact absurd h (splitOnPred_ne_nil p xs)
    · rw [h] at hc
      by_cases hx : p x
      · rw [if_pos hx] at hc
        rcases List.mem_cons.mp hc with hc | hc
        · subst hc; simp at ha
        · exact ih c (by rw [h]; exact hc) a ha
      · rw [if_neg hx] at hc
        simp only [consHead] at hc
        rcases List.mem_cons.mp hc with hc | hc
        · subst hc
          rcases List.mem_cons.mp ha with ha | ha
          · subst ha
            simpa using hx
          · exact ih r (by rw [h]; exact List.mem_cons_self r rs) a ha
        · exact ih c (by rw [h]; exact List.mem_cons_of_mem r hc) a ha

/-- Elements of chunks come from the split list. -/
theorem splitOnPred_chunks_mem {α : Type _} (p : α → Bool) :
    ∀ (l : List α), ∀ c ∈ splitOnPred p l, ∀ a ∈ c, a ∈ l := by
  intro l
  induction l with
  | nil =>
    intro c hc a ha
    simp only [splitOnPred, List.mem_singleton] at hc
    subst hc
    simp at ha
  | cons x xs ih =>
    intro c hc a ha
    simp only [splitOnPred] at hc
    rcases h : splitOnPred p xs with _ | ⟨r, rs⟩
    · exact absurd h (splitOnPred_ne_nil p xs)
    · rw [h] at hc
      by_cases hx : p x
      · rw [if_pos hx] at hc
        rcases List.mem_cons.mp hc with hc | hc
        · subst hc; simp at ha
        · exact List.mem_cons_of_mem x (ih c (by rw [h]; exact hc) a ha)
      · rw [if_neg hx] at hc
        simp only [consHead] at hc
        rcases List.mem_cons.mp hc with hc | hc
        · subst hc
          rcases List.mem_cons.mp ha with ha | ha
          · subst ha; exact List.mem_cons_self a xs
          · exact List.mem_cons_of_mem x
              (ih r (by rw [h]; exact List.mem_cons_self r rs) a ha)
        · exact List.mem_cons_of_mem x
            (ih c (by rw [h]; exact List.mem_cons_of_mem r hc) a ha)

/-- Elements of a separator-joined list are the separator or chunk elements. -/
theorem mem_joinSep {α : Type _} {s : α} :
    ∀ (cs : List (List α)) (a : α), a ∈ joinSep s cs →
      a = s ∨ ∃ c ∈ cs, a ∈ c
  | [], a, ha => by simp [joinSep] at ha
  | [c], a, ha => by
    simp only [joinSep] at ha
    exact Or.inr ⟨c, by simp, ha⟩
  | c :: c2 :: rest, a, ha => by
    simp only [joinSep, List.mem_append, List.mem_cons] at ha
    rcases ha with h | h | h
    · exact Or.inr ⟨c, by simp, h⟩
    · exact Or.inl h
    · rcases mem_joinSep (c2 :: rest) a h with h' | ⟨c', hc', ha'⟩
      · exact Or.inl h'
      · exact Or.inr ⟨c', List.mem_cons_of_mem c hc', ha'⟩

/-- A separator-join of at least one nonempty chunk is nonempty. -/
theorem joinSep_ne_nil {α : Type _} {s : α} :
    ∀ (cs : List (List α)), cs ≠ [] → (∀ c ∈ cs, c ≠ []) →
      joinSep s cs ≠ []
  | [], hne, _ => absurd rfl hne
  | [c], _, h => by simpa [joinSep] using h c (by simp)
  | c :: c2 :: rest, _, _ => by
    simp only [joinSep]
    simp

/-- Pointwise-identity maps are the identity. -/
theorem map_id_of_mem {α : Type _} {f : α → α} :
    ∀ (l : List α), (∀ a ∈ l, f a = a) → l.map f = l
  | [], _ => rfl
  | a :: as, h => by
    simp only [List.map_cons]
    rw [h a (by simp), map_id_of_mem as (fun x hx => h x (by simp [hx]))]

/-- Modelled from the spec: the OCR-confusion correction table of the backend
Normalizer, which is not present under the repository snapshot; a small
immutable table of common OCR character confusions. -/
def ocrTable : List (Char × Char) := [('|', 'I')]

/-- Applies the OCR correction table to one character. -/
def ocrChar (c : Char) : Char := (ocrTable.lookup c).getD c

/-- Characters outside the table are unchanged by the OCR correction. -/
theorem ocrChar_eq_of_ne (c : Char) (h : ¬ c = '|') : ocrChar c = c := by
  have hb : (c == '|') = false := beq_eq_false_iff_ne.mpr h
  simp [ocrChar, ocrTable, List.lookup, hb]

/-- The OCR correction is idempotent: corrected characters are fixed points. -/
theorem ocrChar_idem (c : Char) : ocrChar (ocrChar c) = ocrChar c := by
  by_cases h : c = '|'
  · subst h; rfl
  · rw [ocrChar_eq_of_ne c h, ocrChar_eq_of_ne c h]

/-- Modelled from the spec: the whitespace collapse of the backend Normalizer
(not present under the repository snapshot): redundant whitespace inside a
line collapses to single spaces and the line is trimmed, by splitting into
maximal non-whitespace words and re-joining with single spaces. -/
def cleanLine (l : List Char) : List Char :=
  joinSep ' ' ((splitOnPred isWsChar l).filter (fun w => !w.isEmpty))

/-- Modelled from the spec: boilerplate removal of the backend Normalizer
(not present under the repository snapshot): a line repeated on a strict
majority of a document's pages (headers/footers/page numbers) is dropped;
with at most one page there is no cross-page repetition to detect. -/
def removeBoilerplate (pages : List (List (List Char))) :
    List (List (List Char)) :=
  if pages.length ≤ 1 then pages
  else pages.map (fun pg => pg.filter
    (fun l => decide (2 * (pages.countP (fun q => decide (l ∈ q))) ≤ pages.length)))

/-- Splits raw extracted text into pages (form-feed page markers) of lines. -/
def pagesOf (s : List Char) : List (List (List Char)) :=
  (splitOnPred (fun c => c == '\x0c') s).map (splitOnPred (fun c => c == '\n'))

/-- All lines surviving boilerplate removal, OCR-corrected and
whitespace-collapsed. -/
def cleanedLinesOf (s : List Char) : List (List Char) :=
  ((removeBoilerplate (pagesOf s)).flatten).map (fun l => cleanLine (l.map ocrChar))

/-- Paragraphs: maximal runs of nonblank cleaned lines. -/
def parasOf (s : List Char) : List (List (List Char)) :=
  (splitOnPred List.isEmpty (cleanedLinesOf s)).filter (fun pa => !pa.isEmpty)

/-- Modelled from the spec: the backend Normalizer (`normalize`), which is not
present under the repository snapshot. It removes boilerplate repeated across
most pages, applies the OCR correction table, and collapses redundant
whitespace while preserving paragraph breaks (paragraphs re-joined by a blank
line). -/
def normalizeChars (s : List Char) : List Char :=
  joinSep '\n' (joinSep ([] : List Char) (parasOf s))

/-- Modelled from the spec: string-level entry point of the Normalizer
(`normalize`; named `normalizeText` here because Mathlib already uses the
name `normalize`). -/
def normalizeText (s : String) : String := String.mk (normalizeChars s.data)

/-- Characters of a cleaned line are single spaces or non-whitespace
characters of the source line. -/
theorem mem_cleanLine {l : List Char} {c : Char} (h : c ∈ cleanLine l) :
    c = ' ' ∨ (isWsChar c = false ∧ c ∈ l) := by
  unfold cleanLine at h
  rcases mem_joinSep _ c h with h' | ⟨w, hw, hcw⟩
  · exact Or.inl h'
  · have hw' : w ∈ splitOnPred isWsChar l := List.mem_of_mem_filter hw
    exact Or.inr ⟨splitOnPred_chunks_not isWsChar l w hw' c hcw,
      splitOnPred_chunks_mem isWsChar l w hw' c hcw⟩

/-- The whitespace collapse is idempotent. -/
theorem cleanLine_idem (l : List Char) : cleanLine (cleanLine l) = cleanLine l := by
  have hfree : ∀ w ∈ (splitOnPred isWsChar l).filter (fun w => !w.isEmpty),
      ∀ a ∈ w, isWsChar a = false := fun w hw a ha =>
    splitOnPred_chunks_not isWsChar l w (List.mem_of_mem_filter hw) a ha
  have hne : ∀ w ∈ (splitOnPred isWsChar l).filter (fun w => !w.isEmpty),
      w ≠ [] := by
    intro w hw
    have hv := List.of_mem_filter hw
    simp only [Bool.not_eq_true'] at hv
    intro hwe
    subst hwe
    simp at hv
  rcases hcase : (splitOnPred isWsChar l).filter (fun w => !w.isEmpty)
    with _ | ⟨w, ws⟩
  · unfold cleanLine
    rw [hcase]
    rfl
  · unfold cleanLine
    rw [hcase]
    have hsplit : splitOnPred isWsChar (joinSep ' ' (w :: ws)) = w :: ws := by
      refine splitOnPred_joinSep (w :: ws) (by simp) ?_ (by decide)
      intro cc hcc a ha
      exact hfree cc (by rw [hcase]; exact hcc) a ha
    rw [hsplit]
    have hfilter : (w :: ws).filter (fun x => !x.isEmpty) = w :: ws := by
      refine List.filter_eq_self.mpr ?_
      intro x hx
      have hxne : x ≠ [] := hne x (by rw [hcase]; exact hx)
      cases x
      · exact absurd rfl hxne
      · rfl
    rw [hfilter]

/-- A single page has no cross-page boilerplate to remove. -/
theorem removeBoilerplate_single (pg : List (List Char)) :
    removeBoilerplate [pg] = [pg] := by
  unfold removeBoilerplate
  rw [if_pos (by simp)]

/-- Cleaned lines contain no newline characters. -/
theorem cleanLine_char_not_nl {x : List Char} {c : Char}
    (h : c ∈ cleanLine x) : (c == '\n') = false := by
  rcases mem_cleanLine h with rfl | ⟨hws, _⟩
  · decide
  · refine beq_eq_false_iff_ne.mpr ?_
    intro hc
    subst hc
    simp [isWsChar] at hws

/-- Cleaned lines contain no form-feed characters. -/
theorem cleanLine_char_not_ff {x : List Char} {c : Char}
    (h : c ∈ cleanLine x) : (c == '\x0c') = false := by
  rcases mem_cleanLine h with rfl | ⟨hws, _⟩
  · decide
  · refine beq_eq_false_iff_ne.mpr ?_
    intro hc
    subst hc
    simp [isWsChar] at hws

/-- Characters of an OCR-corrected cleaned line are fixed by the OCR
correction. -/
theorem ocrChar_fix_of_image {x : List Char} {c : Char}
    (h : c ∈ cleanLine (x.map ocrChar)) : ocrChar c = c := by
  rcases mem_cleanLine h with rfl | ⟨_, hcx⟩
  · rfl
  · rcases List.mem_map.mp hcx with ⟨y, _, rfl⟩
    exact ocrChar_idem y

/-- Every line of a normalized paragraph is an OCR-corrected cleaned line. -/
theorem parasOf_line_clean {s : List Char} :
    ∀ pa ∈ parasOf s, ∀ l ∈ pa, ∃ x : List Char, l = cleanLine (x.map ocrChar) := by
  intro pa hpa l hl
  have hpa' : pa ∈ splitOnPred List.isEmpty (cleanedLinesOf s) :=
    List.mem_of_mem_filter hpa
  have hl' : l ∈ cleanedLinesOf s :=
    splitOnPred_chunks_mem List.isEmpty (cleanedLinesOf s) pa hpa' l hl
  unfold cleanedLinesOf at hl'
  rcases List.mem_map.mp hl' with ⟨x, _, rfl⟩
  exact ⟨x, rfl⟩

/-- Every line of the blank-line-joined paragraph list is an OCR-corrected
cleaned line (the blank separator included). -/
theorem joinSepPara_line_clean {s : List Char} :
    ∀ l ∈ joinSep ([] : List Char) (parasOf s),
      ∃ x : List Char, l = cleanLine (x.map ocrChar) := by
  intro l hl
  rcases mem_joinSep (parasOf s) l hl with rfl | ⟨pa, hpa, hlpa⟩
  · exact ⟨[], rfl⟩
  · exact parasOf_line_clean pa hpa l hlpa

/-- Lines of the joined paragraph list contain no newline characters. -/
theorem joinSepPara_line_not_nl {s : List Char} :
    ∀ l ∈ joinSep ([] : List Char) (parasOf s), ∀ c ∈ l,
      (c == '\n') = false := by
  intro l hl c hc
  rcases joinSepPara_line_clean l hl with ⟨x, rfl⟩
  exact cleanLine_char_not_nl hc

/-- Lines of the joined paragraph list are fixed by a second OCR correction
and whitespace collapse. -/
theorem joinSepPara_line_fixed {s : List Char} :
    ∀ l ∈ joinSep ([] : List Char) (parasOf s),
      cleanLine (l.map ocrChar) = l := by
  intro l hl
  rcases joinSepPara_line_clean l hl with ⟨x, rfl⟩
  have hmap : (cleanLine (x.map ocrChar)).map ocrChar = cleanLine (x.map ocrChar) :=
    map_id_of_mem _ (fun c hc => ocrChar_fix_of_image hc)
  rw [hmap, cleanLine_idem]

/-- Paragraphs are nonempty line runs. -/
theorem parasOf_ne_empty {s : List Char} : ∀ pa ∈ parasOf s, pa ≠ [] := by
  intro pa hpa
  have hv := List.of_mem_filter hpa
  simp only [Bool.not_eq_true'] at hv
  intro h
  subst h
  simp at hv

/-- Paragraph lines are nonblank. -/
theorem parasOf_lines_not_empty {s : List Char} :
    ∀ pa ∈ parasOf s, ∀ l ∈ pa, List.isEmpty l = false := by
  intro pa hpa l hl
  exact splitOnPred_chunks_not List.isEmpty (cleanedLinesOf s) pa
    (List.mem_of_mem_filter hpa) l hl

/-- Normalized text contains no form-feed page markers. -/
theorem normalizeChars_char_not_ff {s : List Char} :
    ∀ c ∈ normalizeChars s, (c == '\x0c') = false := by
  intro c hc
  unfold normalizeChars at hc
  rcases mem_joinSep _ c hc with rfl | ⟨l, hl, hcl⟩
  · decide
  · rcases joinSepPara_line_clean l hl with ⟨x, rfl⟩
    exact cleanLine_char_not_ff hcl

/-- The Normalizer model is idempotent at the character-list level. -/
theorem normalizeChars_idem (s : List Char) :
    normalizeChars (normalizeChars s) = normalizeChars s := by
  by_cases hps : parasOf s = []
  · have ht : normalizeChars s = [] := by
      unfold normalizeChars
      rw [hps]
      rfl
    rw [ht]
    rfl
  · have hLne : joinSep ([] : List Char) (parasOf s) ≠ [] :=
      joinSep_ne_nil (parasOf s) hps parasOf_ne_empty
    have c1 : splitOnPred (fun c => c == '\x0c') (normalizeChars s) =
        [normalizeChars s] :=
      splitOnPred_eq_single normalizeChars_char_not_ff
    have c3 : splitOnPred (fun c => c == '\n') (normalizeChars s) =
        joinSep ([] : List Char) (parasOf s) := by
      have ht : normalizeChars s =
          joinSep '\n' (joinSep ([] : List Char) (parasOf s)) := rfl
      rw [ht]
      exact splitOnPred_joinSep _ hLne joinSepPara_line_not_nl (by decide)
    have c2 : pagesOf (normalizeChars s) =
        [splitOnPred (fun c => c == '\n') (normalizeChars s)] := by
      unfold pagesOf
      rw [c1]
      rfl
    have c4 : cleanedLinesOf (normalizeChars s) =
        joinSep ([] : List Char) (parasOf s) := by
      unfold cleanedLinesOf
      rw [c2, removeBoilerplate_single]
      simp only [List.flatten_cons, List.flatten_nil, List.append_nil]
      rw [c3]
      exact map_id_of_mem _ joinSepPara_line_fixed
    have c5 : parasOf (normalizeChars s) = parasOf s := by
      unfold parasOf
      rw [c4]
      rw [splitOnPred_joinSep (parasOf s) hps parasOf_lines_not_empty (by decide)]
      refine List.filter_eq_self.mpr ?_
      intro pa hpa
      have hne := parasOf_ne_empty pa hpa
      cases pa
      · exact absurd rfl hne
      · rfl
    show joinSep '\n' (joinSep ([] : List Char) (parasOf (normalizeChars s))) =
      normalizeChars s
    rw [c5]
    rfl

/-- C5: the Normalizer is idempotent: `normalize(normalize(x)) == normalize(x)`
for every input string. -/
theorem C5_normalize_idempotent (x : String) :
    normalizeText (normalizeText x) = normalizeText x := by
  unfold normalizeText
  exact congrArg String.mk (normalizeChars_idem x.data)

/-- Modelled from the spec: the minimum clause-length threshold of the backend
Clause Segmenter (not present under the repository snapshot). -/
def MIN_CLAUSE_LENGTH : Nat := 20

/-- Modelled from the spec: the Segmenter merges fragments that are too short
to be meaningful clauses into the following clause (a trailing short fragment
with no following clause stays as is). -/
def mergeShortFragments (minLen : Nat) : List (List Char) → List (List Char)
  | [] => []
  | c :: rest =>
    match mergeShortFragments minLen rest with
    | [] => [c]
    | r :: rs =>
      if c.length < minLen then (c ++ ' ' :: r) :: rs else c :: r :: rs

/-- Modelled from the spec: the backend Clause Segmenter (not present under
the repository snapshot) splits normalized text into ordered clause units;
paragraph breaks are the universal fallback boundary strategy and too-short
fragments merge into the following clause. -/
def clauseTexts (s : List Char) : List (List Char) :=
  mergeShortFragments MIN_CLAUSE_LENGTH
    (((splitOnPred List.isEmpty (splitOnPred (fun c => c == '\n') s)).filter
        (fun pa => !pa.isEmpty)).map (joinSep ' '))

/-- A segmented clause unit: its 0-based ordinal and its text. -/
structure SegClause where
  ordinal : Nat
  text : List Char
deriving DecidableEq, Repr

/-- Modelled from the spec: segmentation assigns each clause its 0-based
position in source order as the ordinal. -/
def segmentDocument (s : String) : List SegClause :=
  ((clauseTexts s.data).enum).map (fun pr => ⟨pr.1, pr.2⟩)

/-- C6: for every document, clause ordinals are contiguous, 0-indexed, and in
source order: the ordinals of the segmented clauses are exactly
`0, 1, ..., n-1` in that order. -/
theorem C6_clause_ordinals (t : String) :
    (segmentDocument t).map SegClause.ordinal =
      List.range (segmentDocument t).length := by
  unfold segmentDocument
  rw [List.map_map, List.length_map]
  have hcomp : (SegClause.ordinal ∘ fun pr : Nat × List Char =>
      (⟨pr.1, pr.2⟩ : SegClause)) = Prod.fst := rfl
  rw [hcomp, List.enum_map_fst, List.enum_length]
